import Mathlib

/-!
Verification of the section-indexed document editor of the
blue-collar-job-portal repository.

The repository contains two scripts that edit the markdown document
`docs/use-case-specifications.md`:

* `docs/update_specs.py` splits the document into lines, walks them with a
  regex `^## (\d+)\. (.+)`, inserts a fixed "Onboarding" section immediately
  before the first heading numbered 8, and renumbers every later matching
  heading line with a running counter 9, 10, 11, ...
* `update_specs_employer.py` searches for the first line starting with
  `## 18.`, splits the raw text there, prepends a fixed
  "Employer Onboarding" section, and rewrites every line of the tail matching
  `^## (\d+)\.` to `## (N+1).` with `re.sub(..., re.MULTILINE)`.

Both scripts are embedded below over a line-list model: a document is the
list of its newline-separated lines (`List (List Char)`), exactly the view
produced by Python's `content.split('\n')`.  `splitNL`/`joinNL` embed the
split/join at the document boundary.  Python's `f"{n}"` decimal printing is
embedded by `natToDigits`, and `int(...)` on the matched digit group by
`digitsToNat`.
-/

namespace UpdateSpecs

/-- Decimal digit character for a value below 10, as produced by Python
string formatting (`'0'` has code 48). -/
def digitChar (n : Nat) : Char := Char.ofNat (48 + n)

/-- Fuel-driven accumulator loop producing the decimal digits of `n` in
front of `acc`; `fuel > n` suffices for full evaluation. -/
def natToDigitsAux : Nat → Nat → List Char → List Char
  | 0, _, acc => acc
  | fuel + 1, n, acc =>
    if n < 10 then digitChar n :: acc
    else natToDigitsAux fuel (n / 10) (digitChar (n % 10) :: acc)

/-- Decimal representation of a natural number, embedding Python's
`f"{n}"` formatting of a nonnegative int. -/
def natToDigits (n : Nat) : List Char := natToDigitsAux (n + 1) n []

/-- Value of a digit string, embedding Python's `int(...)` applied to the
group matched by `(\d+)`. -/
def digitsToNat (ds : List Char) : Nat :=
  ds.foldl (fun a c => 10 * a + (c.toNat - 48)) 0

/-- Embeds `re.compile(r'^## (\d+)\. (.+)').match(line)` from
`docs/update_specs.py`: the line must start with `## `, followed by at
least one digit, then `. `, then a nonempty title (the rest of the line).
Returns the numeric value of the digit group and the title. -/
def matchHeading (l : List Char) : Option (Nat × List Char) :=
  match l with
  | a :: b :: c :: rest =>
    if a = '#' ∧ b = '#' ∧ c = ' ' then
      match rest.dropWhile Char.isDigit with
      | d :: e :: t =>
        if rest.takeWhile Char.isDigit ≠ [] ∧ d = '.' ∧ e = ' ' ∧ t ≠ [] then
          some (digitsToNat (rest.takeWhile Char.isDigit), t)
        else none
      | _ => none
    else none
  | _ => none

/-- Embeds the f-string `f"## {num}. {title}"` used by
`docs/update_specs.py` to write a renumbered heading line. -/
def mkHeading (n : Nat) (t : List Char) : List Char :=
  '#' :: '#' :: ' ' :: (natToDigits n ++ '.' :: ' ' :: t)

/-- Whether a line is a heading whose number parses to 8, i.e. triggers the
insertion branch of `docs/update_specs.py`. -/
def isHeading8 (l : List Char) : Bool :=
  match matchHeading l with
  | some (n, _) => n == 8
  | none => false

/-- The heading numbers of a document's lines, in document order. -/
def headingNums (ls : List (List Char)) : List Nat :=
  ls.filterMap (fun l => (matchHeading l).map Prod.fst)

/-- The heading titles of a document's lines, in document order. -/
def headingTitles (ls : List (List Char)) : List (List Char) :=
  ls.filterMap (fun l => (matchHeading l).map Prod.snd)

/-- The lines of the `new_use_case` literal of `docs/update_specs.py` after
`.strip()` (the literal has no leading whitespace and ends in two newline
characters, which `.strip()` removes).  The script appends the stripped
multi-line string as a single element of `new_lines` and later joins with
a newline, which is the same document text as splicing in these lines. -/
def newUseCaseLines : List (List Char) := List.map String.data [
  "## 8. Onboarding",
  "",
  "**1. Use Case Name**",
  "Onboarding",
  "",
  "**2. Description (Purpose)**",
  "This use case guides a new Job Seeker through setting up their profile, including personal details, industry preferences, and resume generation, to ensure they are ready to apply for jobs.",
  "",
  "**3. Primary Actor**",
  "Job Seeker",
  "",
  "**4. Supporting Actors**",
  "System",
  "",
  "**5. Stakeholders and Interests**",
  "",
  "- **Job Seeker:** Wants to quickly set up their profile to start applying.",
  "- **Employer:** Wants candidates to have complete profiles for better evaluation.",
  "- **System:** Needs to collect user data to provide relevant job recommendations.",
  "",
  "**6. Preconditions**",
  "",
  "- Job Seeker has successfully registered and verified their account.",
  "- Job Seeker has not completed the onboarding process.",
  "",
  "**7. Postconditions**",
  "",
  "- **Success:** Job Seeker profile is complete, preferences are set, resume is generated, and onboarding status is finalized.",
  "- **Failure:** Onboarding is incomplete; user stays in the onboarding flow.",
  "",
  "**8. Trigger**",
  "Job Seeker completes account verification or logs in for the first time.",
  "",
  "**9. Main Success Scenario (Standard Flow)**",
  "",
  "1.  System initiates the Onboarding Flow.",
  "2.  Job Seeker completes Personal Profile (Name, Contact, Address).",
  "3.  System validates and saves profile data.",
  "4.  Job Seeker selects Preferred Industries.",
  "5.  System saves preferences.",
  "6.  Job Seeker initiates Resume Generation.",
  "7.  System generates resume (AI/Template) and saves it.",
  "8.  System displays a summary of the provided information.",
  "9.  Job Seeker reviews the information.",
  "10. Job Seeker confirms and clicks \"Continue\".",
  "11. System finalizes onboarding status.",
  "12. System redirects Job Seeker to the Dashboard.",
  "",
  "**10. Alternative Flows**",
  "",
  "- **A1: Skip Steps**",
  "  1.  At steps 2, 4, or 6, the Job Seeker chooses to skip the step.",
  "  2.  System proceeds to the next step without saving data for that section.",
  "- **A2: Edit Information**",
  "  1.  At step 9, Job Seeker chooses to edit information.",
  "  2.  Flow returns to the relevant section (Step 2, 4, or 6).",
  "",
  "**11. Exception Flows**",
  "",
  "- **E1: Validation Error:** System shows error message; user corrects input.",
  "- **E2: Generation Failure:** Resume generation fails; system offers retry.",
  "",
  "---"]

/-- Embeds the main loop of `docs/update_specs.py` over the remaining
lines.  State: `inserted` is the script's `inserted` flag, `cur` its
`current_section_num`.  A line matching the heading regex triggers, in
order: the insertion branch (`num == 8 and not inserted`, which splices the
new use case, two blank lines from the two `append('')` calls, and the old
heading rewritten to `## 9.`), the renumbering branch (`elif inserted`,
which increments the counter and rewrites the heading), or plain
pass-through; non-matching lines always pass through. -/
def onboardGo : Bool → Nat → List (List Char) → List (List Char)
  | _, _, [] => []
  | inserted, cur, l :: ls =>
    match matchHeading l with
    | some (num, title) =>
      if num = 8 ∧ inserted = false then
        newUseCaseLines ++ [[], []] ++ mkHeading 9 title :: onboardGo true 9 ls
      else if inserted = true then
        mkHeading (cur + 1) title :: onboardGo true (cur + 1) ls
      else
        l :: onboardGo inserted cur ls
    | none => l :: onboardGo inserted cur ls

/-- Embeds Python's `content.split('\n')`: cut a character stream at every
newline character. -/
def splitNL : List Char → List (List Char)
  | [] => [[]]
  | c :: cs =>
    if c = '\n' then [] :: splitNL cs
    else
      match splitNL cs with
      | [] => [[c]]
      | l :: ls => (c :: l) :: ls

/-- Embeds Python's `'\n'.join(lines)`. -/
def joinNL : List (List Char) → List Char
  | [] => []
  | [l] => l
  | l :: l' :: ls => l ++ '\n' :: joinNL (l' :: ls)

/-- The whole transformation of `docs/update_specs.py` on the document
text: split into lines, run the insertion/renumbering loop with
`inserted = False` and `current_section_num = 0`, join with newlines. -/
def updateSpecsOnboarding (content : String) : String :=
  String.mk (joinNL (onboardGo false 0 (splitNL content.data)))

/-- Embeds `re.search(r"^## 18\.", content, re.MULTILINE)` matching at a
given line: the line starts with the six characters `## 18.`. -/
def startsWith18 (l : List Char) : Bool :=
  match l with
  | a :: b :: c :: d :: e :: f :: _ =>
    a = '#' && b = '#' && c = ' ' && d = '1' && e = '8' && f = '.'
  | _ => false

/-- Index of the first line where `re.search(r"^## 18\.", ...)` matches. -/
def findIdx18 : List (List Char) → Option Nat
  | [] => none
  | l :: ls => if startsWith18 l then some 0 else (findIdx18 ls).map (· + 1)

/-- Embeds the effect of
`re.sub(r"^## (\d+)\.", lambda m: f"## \x7bint(m.group(1)) + 1\x7d.", after, flags=re.MULTILINE)`
from `update_specs_employer.py` on a single line: if the line starts with
`## `, then one or more digits, then `.`, the matched span is replaced by
`## ` followed by the incremented value and `.`; the rest of the line is
kept.  Any other line is left unchanged. -/
def renumberLineEmployer (l : List Char) : List Char :=
  match l with
  | a :: b :: c :: rest =>
    if a = '#' ∧ b = '#' ∧ c = ' ' then
      match rest.dropWhile Char.isDigit with
      | d :: rest2 =>
        if rest.takeWhile Char.isDigit ≠ [] ∧ d = '.' then
          '#' :: '#' :: ' ' ::
            (natToDigits (digitsToNat (rest.takeWhile Char.isDigit) + 1) ++ '.' :: rest2)
        else l
      | _ => l
    else l
  | _ => l

/-- The lines of the `new_section` literal of `update_specs_employer.py`
strictly between its leading and trailing newline characters. -/
def employerSectionLines : List (List Char) := List.map String.data [
  "## 18. Employer Onboarding",
  "",
  "**1. Use Case Name**",
  "Employer Onboarding",
  "",
  "**2. Description (Purpose)**",
  "This use case guides the Employer through the initial company profile setup and verification document submission.",
  "",
  "**3. Primary Actor**",
  "Employer",
  "",
  "**4. Supporting Actors**",
  "Admin (for subsequent verification)",
  "",
  "**5. Stakeholders and Interests**",
  "",
  "- **Employer:** Wants to get their account verified to start posting jobs.",
  "- **Admin:** Needs to verify legitimate businesses.",
  "",
  "**6. Preconditions**",
  "- Employer account is created and email verified.",
  "- Onboarding is not completed.",
  "",
  "**7. Postconditions**",
  "- **Success:** Company profile and documents submitted for review. Account status set to Pending.",
  "- **Failure:** Onboarding remains incomplete.",
  "",
  "**8. Trigger**",
  "User completes account verification or logs in with an incomplete profile/verification.",
  "",
  "**9. Main Success Scenario (Standard Flow)**",
  "",
  "1.  System initiates Employer Onboarding Flow.",
  "2.  User completes Company Profile details.",
  "3.  User uploads Verification Documents.",
  "4.  System displays summary.",
  "5.  User reviews information.",
  "6.  User clicks \"Continue\".",
  "7.  System sets account status to \"Pending\".",
  "8.  System notifies Admin for review.",
  "9.  System shows \"Pending Approval\" screen.",
  "",
  "**10. Alternative Flows**",
  "",
  "- **A1: Edit Information**",
  "  1.  User chooses to edit information during review.",
  "  2.  System navigates back to the relevant step.",
  "",
  "**11. Exception Flows**",
  "",
  "- **E1: Validation Error:** System shows error message.",
  "- **E2: Upload Failed:** Document upload fails; system prompts to retry.",
  "",
  "---"]

/-- Embeds `update_specs_employer.py` on the document lines.  The script
searches for the first line-start match of `^## 18\.`; if none exists it
prints `Could not find Section 18.` and exits with status 1 before
touching the file.  Otherwise it splits the raw text at the match start —
lines before the match, then the tail starting with the matched line —
and writes `before + new_section + after_renumbered`.  Because
`new_section` begins and ends with a newline and the split point is a line
start, the resulting text is exactly the join of: the lines before the
match, one empty line, the `new_section` body lines, and the tail lines
each rewritten by the `re.sub` replacement. -/
def updateSpecsEmployerLines (ls : List (List Char)) :
    Except String (List (List Char)) :=
  match findIdx18 ls with
  | none => Except.error ("Could not find Section 18.")
  | some i =>
    Except.ok (ls.take i ++ [[]] ++ employerSectionLines ++
      (ls.drop i).map renumberLineEmployer)

/-- The employer transformation on the document text. -/
def updateSpecsEmployer (content : String) : Except String String :=
  (updateSpecsEmployerLines (splitNL content.data)).map
    (fun ls => String.mk (joinNL ls))

/-- Observable outcome of one run of `update_specs_employer.py`: the file
contents after the run and the exit status (`some 1` for the early
`exit(1)`, `none` for a normal exit). -/
structure EmployerRun where
  fileAfter : String
  exitCode : Option Nat
  deriving Repr, DecidableEq

/-- Embeds the I/O skeleton of `update_specs_employer.py`: read the file,
search for `^## 18.`; on failure print and `exit(1)` — the write call is
never reached, so the file keeps its contents — otherwise write the whole
transformed text in a single write. -/
def runEmployerScript (file0 : String) : EmployerRun :=
  match updateSpecsEmployer file0 with
  | Except.error _ => { fileAfter := file0, exitCode := some 1 }
  | Except.ok out => { fileAfter := out, exitCode := none }

/-- A section record of the well-formed-document model: a title and the
body lines between this heading line and the next heading line. -/
structure Sec where
  title : List Char
  body : List (List Char)

/-- Render sections with contiguous heading numbers starting at `n`. -/
def renderSecs (n : Nat) : List Sec → List (List Char)
  | [] => []
  | s :: ss => mkHeading n s.title :: (s.body ++ renderSecs (n + 1) ss)

/-- A well-formed document: preamble lines followed by sections numbered
contiguously from 1. -/
def renderDoc (pre : List (List Char)) (secs : List Sec) : List (List Char) :=
  pre ++ renderSecs 1 secs

/-- Side conditions making the rendered sections parse back as written:
every title is nonempty (the regex group `(.+)` requires this for the
heading line to be a heading at all) and no body line matches the heading
regex. -/
def wfSecs (secs : List Sec) : Prop :=
  ∀ s ∈ secs, s.title ≠ [] ∧ ∀ l ∈ s.body, matchHeading l = none

/-- Well-formed document: no preamble line matches the heading regex and
the sections satisfy `wfSecs`. -/
def wfDoc (pre : List (List Char)) (secs : List Sec) : Prop :=
  (∀ l ∈ pre, matchHeading l = none) ∧ wfSecs secs

instance (secs : List Sec) : Decidable (wfSecs secs) := by
  unfold wfSecs
  infer_instance

instance (pre : List (List Char)) (secs : List Sec) : Decidable (wfDoc pre secs) := by
  unfold wfDoc
  infer_instance

theorem digitChar_isDigit {m : Nat} (h : m < 10) : (digitChar m).isDigit = true := by
  interval_cases m <;> decide

theorem digitChar_toNat {m : Nat} (h : m < 10) : (digitChar m).toNat = 48 + m := by
  interval_cases m <;> decide

theorem natToDigitsAux_foldl :
    ∀ fuel n acc a, n < fuel →
      ∃ k, 0 < k ∧
        (natToDigitsAux fuel n acc).foldl (fun a c => 10 * a + (c.toNat - 48)) a =
          acc.foldl (fun a c => 10 * a + (c.toNat - 48)) (a * 10 ^ k + n) := by
  intro fuel
  induction fuel with
  | zero => intro n acc a h; exact absurd h (Nat.not_lt_zero n)
  | succ f ih =>
    intro n acc a h
    by_cases h10 : n < 10
    · refine ⟨1, Nat.one_pos, ?_⟩
      simp only [natToDigitsAux, if_pos h10, List.foldl_cons]
      congr 1
      rw [digitChar_toNat h10, pow_one]
      omega
    · have hrec : n / 10 < f := by
        have hd := Nat.div_lt_self (show 0 < n by omega) (show 1 < 10 by norm_num)
        omega
      obtain ⟨k, hk, hfold⟩ := ih (n / 10) (digitChar (n % 10) :: acc) a hrec
      refine ⟨k + 1, Nat.succ_pos k, ?_⟩
      simp only [natToDigitsAux, if_neg h10]
      rw [hfold, List.foldl_cons]
      congr 1
      rw [digitChar_toNat (Nat.mod_lt n (by norm_num))]
      have h1 : 48 + n % 10 - 48 = n % 10 := by omega
      rw [h1, pow_succ]
      have h2 : 10 * (a * 10 ^ k + n / 10) + n % 10 =
          a * 10 ^ k * 10 + (10 * (n / 10) + n % 10) := by ring
      rw [h2, Nat.div_add_mod, Nat.mul_assoc]

theorem digitsToNat_natToDigits (n : Nat) : digitsToNat (natToDigits n) = n := by
  obtain ⟨k, _, h⟩ := natToDigitsAux_foldl (n + 1) n [] 0 (Nat.lt_succ_self n)
  simpa [digitsToNat, natToDigits] using h

theorem natToDigitsAux_digits :
    ∀ fuel n acc, (∀ c ∈ acc, c.isDigit = true) →
      ∀ c ∈ natToDigitsAux fuel n acc, c.isDigit = true := by
  intro fuel
  induction fuel with
  | zero => intro n acc hacc c hc; exact hacc c hc
  | succ f ih =>
    intro n acc hacc c hc
    by_cases h10 : n < 10
    · simp only [natToDigitsAux, if_pos h10] at hc
      rcases List.mem_cons.mp hc with rfl | hmem
      · exact digitChar_isDigit h10
      · exact hacc c hmem
    · simp only [natToDigitsAux, if_neg h10] at hc
      refine ih (n / 10) _ ?_ c hc
      intro c' hc'
      rcases List.mem_cons.mp hc' with rfl | hmem
      · exact digitChar_isDigit (Nat.mod_lt n (by norm_num))
      · exact hacc c' hmem

theorem natToDigits_digits (n : Nat) : ∀ c ∈ natToDigits n, c.isDigit = true :=
  natToDigitsAux_digits (n + 1) n [] (by simp)

theorem natToDigitsAux_eq_append :
    ∀ fuel n acc, ∃ p, natToDigitsAux fuel n acc = p ++ acc := by
  intro fuel
  induction fuel with
  | zero => intro n acc; exact ⟨[], rfl⟩
  | succ f ih =>
    intro n acc
    by_cases h10 : n < 10
    · exact ⟨[digitChar n], by simp [natToDigitsAux, if_pos h10]⟩
    · obtain ⟨p, hp⟩ := ih (n / 10) (digitChar (n % 10) :: acc)
      exact ⟨p ++ [digitChar (n % 10)],
        by simp [natToDigitsAux, if_neg h10, hp]⟩

theorem natToDigits_ne_nil (n : Nat) : natToDigits n ≠ [] := by
  unfold natToDigits
  by_cases h10 : n < 10
  · simp [natToDigitsAux, if_pos h10]
  · obtain ⟨p, hp⟩ := natToDigitsAux_eq_append n (n / 10) [digitChar (n % 10)]
    simp [natToDigitsAux, if_neg h10, hp]

theorem takeWhile_append_of_all {p : Char → Bool} :
    ∀ (ds : List Char) (x : Char) (rest : List Char),
      (∀ c ∈ ds, p c = true) → p x = false →
      List.takeWhile p (ds ++ x :: rest) = ds := by
  intro ds
  induction ds with
  | nil => intro x rest _ hx; simp [List.takeWhile_cons, hx]
  | cons c ds ih =>
    intro x rest hall hx
    have hc : p c = true := hall c (by simp)
    simp only [List.cons_append, List.takeWhile_cons, hc, if_true]
    rw [ih x rest (fun c' h' => hall c' (by simp [h'])) hx]

theorem dropWhile_append_of_all {p : Char → Bool} :
    ∀ (ds : List Char) (x : Char) (rest : List Char),
      (∀ c ∈ ds, p c = true) → p x = false →
      List.dropWhile p (ds ++ x :: rest) = x :: rest := by
  intro ds
  induction ds with
  | nil => intro x rest _ hx; simp [List.dropWhile_cons, hx]
  | cons c ds ih =>
    intro x rest hall hx
    have hc : p c = true := hall c (by simp)
    simp only [List.cons_append, List.dropWhile_cons, hc, if_true]
    exact ih x rest (fun c' h' => hall c' (by simp [h'])) hx

theorem matchHeading_mkHeading (n : Nat) (t : List Char) (ht : t ≠ []) :
    matchHeading (mkHeading n t) = some (n, t) := by
  have h1 : (natToDigits n ++ '.' :: ' ' :: t).dropWhile Char.isDigit = '.' :: ' ' :: t :=
    dropWhile_append_of_all _ _ _ (natToDigits_digits n) (by decide)
  have h2 : (natToDigits n ++ '.' :: ' ' :: t).takeWhile Char.isDigit = natToDigits n :=
    takeWhile_append_of_all _ _ _ (natToDigits_digits n) (by decide)
  simp [matchHeading, mkHeading, h1, h2, natToDigits_ne_nil n, ht,
    digitsToNat_natToDigits]

theorem matchHeading_title_ne_nil {l : List Char} {n : Nat} {t : List Char}
    (h : matchHeading l = some (n, t)) : t ≠ [] := by
  unfold matchHeading at h
  split at h
  · split at h
    · split at h
      · split at h
        · rename_i hcond
          injection h with h'
          injection h' with _ h2
          subst h2
          exact hcond.2.2.2
        · exact absurd h (by simp)
      · exact absurd h (by simp)
    · exact absurd h (by simp)
  · exact absurd h (by simp)

theorem isHeading8_of_none {l : List Char} (h : matchHeading l = none) :
    isHeading8 l = false := by
  simp [isHeading8, h]

theorem isHeading8_of_some {l : List Char} {n : Nat} {t : List Char}
    (h : matchHeading l = some (n, t)) (hn : n ≠ 8) : isHeading8 l = false := by
  simp [isHeading8, h, hn]

theorem headingNums_nil : headingNums [] = [] := rfl

theorem headingNums_cons_none {l : List Char} (h : matchHeading l = none)
    (ls : List (List Char)) : headingNums (l :: ls) = headingNums ls := by
  simp [headingNums, h]

theorem headingNums_cons_some {l : List Char} {n : Nat} {t : List Char}
    (h : matchHeading l = some (n, t)) (ls : List (List Char)) :
    headingNums (l :: ls) = n :: headingNums ls := by
  simp [headingNums, h]

theorem headingNums_append (xs ys : List (List Char)) :
    headingNums (xs ++ ys) = headingNums xs ++ headingNums ys := by
  simp [headingNums, List.filterMap_append]

theorem headingNums_eq_nil {ls : List (List Char)}
    (h : ∀ l ∈ ls, matchHeading l = none) : headingNums ls = [] := by
  induction ls with
  | nil => rfl
  | cons l ls ih =>
    rw [headingNums_cons_none (h l (by simp))]
    exact ih (fun l' h' => h l' (by simp [h']))

theorem headingTitles_nil : headingTitles [] = [] := rfl

theorem headingTitles_cons_none {l : List Char} (h : matchHeading l = none)
    (ls : List (List Char)) : headingTitles (l :: ls) = headingTitles ls := by
  simp [headingTitles, h]

theorem headingTitles_cons_some {l : List Char} {n : Nat} {t : List Char}
    (h : matchHeading l = some (n, t)) (ls : List (List Char)) :
    headingTitles (l :: ls) = t :: headingTitles ls := by
  simp [headingTitles, h]

theorem headingTitles_append (xs ys : List (List Char)) :
    headingTitles (xs ++ ys) = headingTitles xs ++ headingTitles ys := by
  simp [headingTitles, List.filterMap_append]

theorem headingTitles_eq_nil {ls : List (List Char)}
    (h : ∀ l ∈ ls, matchHeading l = none) : headingTitles ls = [] := by
  induction ls with
  | nil => rfl
  | cons l ls ih =>
    rw [headingTitles_cons_none (h l (by simp))]
    exact ih (fun l' h' => h l' (by simp [h']))

theorem onboardGo_nil (b : Bool) (cur : Nat) : onboardGo b cur [] = [] := rfl

theorem onboardGo_cons_none {l : List Char} (h : matchHeading l = none)
    (b : Bool) (cur : Nat) (ls : List (List Char)) :
    onboardGo b cur (l :: ls) = l :: onboardGo b cur ls := by
  simp [onboardGo, h]

theorem onboardGo_cons_eight {l : List Char} {t : List Char}
    (h : matchHeading l = some (8, t)) (cur : Nat) (ls : List (List Char)) :
    onboardGo false cur (l :: ls) =
      newUseCaseLines ++ [[], []] ++ mkHeading 9 t :: onboardGo true 9 ls := by
  simp [onboardGo, h]

theorem onboardGo_cons_inserted {l : List Char} {n : Nat} {t : List Char}
    (h : matchHeading l = some (n, t)) (cur : Nat) (ls : List (List Char)) :
    onboardGo true cur (l :: ls) =
      mkHeading (cur + 1) t :: onboardGo true (cur + 1) ls := by
  simp [onboardGo, h]

theorem onboardGo_cons_other {l : List Char} {n : Nat} {t : List Char}
    (h : matchHeading l = some (n, t)) (hn : n ≠ 8) (cur : Nat)
    (ls : List (List Char)) :
    onboardGo false cur (l :: ls) = l :: onboardGo false cur ls := by
  simp [onboardGo, h, hn]

/-- As long as the insertion branch has not fired, every line that is not a
heading numbered 8 is passed through unchanged and the loop state is
untouched: the loop acts only on the suffix starting at the first heading
numbered 8. -/
theorem onboardGo_untouched_before :
    ∀ (pre : List (List Char)), (∀ l ∈ pre, isHeading8 l = false) →
      ∀ (cur : Nat) (rest : List (List Char)),
        onboardGo false cur (pre ++ rest) = pre ++ onboardGo false cur rest := by
  intro pre
  induction pre with
  | nil => intro _ cur rest; simp
  | cons l pre ih =>
    intro hp cur rest
    have hl : isHeading8 l = false := hp l (by simp)
    have htail : ∀ l' ∈ pre, isHeading8 l' = false :=
      fun l' h' => hp l' (by simp [h'])
    cases h : matchHeading l with
    | none =>
      rw [List.cons_append, onboardGo_cons_none h, ih htail cur rest,
        List.cons_append]
    | some p =>
      obtain ⟨n, t⟩ := p
      have hn : n ≠ 8 := by
        intro e
        subst e
        have h8 : isHeading8 l = true := by simp [isHeading8, h]
        rw [h8] at hl
        exact absurd hl (by simp)
      rw [List.cons_append, onboardGo_cons_other h hn, ih htail cur rest,
        List.cons_append]

/-- Lines that do not match the heading regex pass through in either loop
state, leaving the state untouched. -/
theorem onboardGo_append_none :
    ∀ (bs : List (List Char)), (∀ l ∈ bs, matchHeading l = none) →
      ∀ (b : Bool) (cur : Nat) (rest : List (List Char)),
        onboardGo b cur (bs ++ rest) = bs ++ onboardGo b cur rest := by
  intro bs
  induction bs with
  | nil => intro _ b cur rest; simp
  | cons l bs ih =>
    intro hb b cur rest
    rw [List.cons_append, onboardGo_cons_none (hb l (by simp)),
      ih (fun l' h' => hb l' (by simp [h'])) b cur rest, List.cons_append]

/-- After the insertion branch has fired, the loop rewrites the heading
lines it meets with consecutive numbers `cur + 1`, `cur + 2`, ... in order
of appearance — independently of their original numbers — and preserves
each heading's title and every non-heading line. -/
theorem onboardGo_true_renumbers :
    ∀ (ls : List (List Char)) (cur : Nat),
      headingNums (onboardGo true cur ls) =
        List.range' (cur + 1) (headingTitles ls).length ∧
      headingTitles (onboardGo true cur ls) = headingTitles ls := by
  intro ls
  induction ls with
  | nil => intro cur; simp [onboardGo_nil, headingNums_nil, headingTitles_nil]
  | cons l ls ih =>
    intro cur
    cases h : matchHeading l with
    | none =>
      rw [onboardGo_cons_none h, headingNums_cons_none h,
        headingTitles_cons_none h, headingTitles_cons_none h]
      exact ih cur
    | some p =>
      obtain ⟨n, t⟩ := p
      have ht : t ≠ [] := matchHeading_title_ne_nil h
      have hm := matchHeading_mkHeading (cur + 1) t ht
      obtain ⟨ih1, ih2⟩ := ih (cur + 1)
      rw [onboardGo_cons_inserted h]
      constructor
      · rw [headingNums_cons_some hm, ih1, headingTitles_cons_some h]
        simp [List.range'_succ]
      · rw [headingTitles_cons_some hm, ih2, headingTitles_cons_some h]

theorem wfSecs_of_cons {s : Sec} {ss : List Sec} (h : wfSecs (s :: ss)) :
    wfSecs ss :=
  fun s' h' => h s' (by simp [h'])

theorem renderSecs_append :
    ∀ (A B : List Sec) (n : Nat),
      renderSecs n (A ++ B) = renderSecs n A ++ renderSecs (n + A.length) B := by
  intro A
  induction A with
  | nil => intro B n; simp [renderSecs]
  | cons s A ih =>
    intro B n
    simp only [List.cons_append, renderSecs, List.length_cons, List.append_eq]
    rw [ih B (n + 1), List.append_assoc]
    have harith : n + 1 + A.length = n + (A.length + 1) := by omega
    rw [harith]

theorem renderSecs_isHeading8_false :
    ∀ (ss : List Sec) (n : Nat), wfSecs ss → (n + ss.length ≤ 8 ∨ 8 < n) →
      ∀ l ∈ renderSecs n ss, isHeading8 l = false := by
  intro ss
  induction ss with
  | nil => intro n _ _ l hl; simp [renderSecs] at hl
  | cons s ss ih =>
    intro n hwf hbound l hl
    obtain ⟨hstitle, hsbody⟩ := hwf s (by simp)
    simp only [renderSecs, List.mem_cons, List.mem_append] at hl
    rcases hl with rfl | hl | hl
    · have hn : n ≠ 8 := by simp [List.length_cons] at hbound; omega
      exact isHeading8_of_some (matchHeading_mkHeading n s.title hstitle) hn
    · exact isHeading8_of_none (hsbody l hl)
    · refine ih (n + 1) (wfSecs_of_cons hwf) ?_ l hl
      simp [List.length_cons] at hbound
      omega

theorem headingNums_renderSecs :
    ∀ (ss : List Sec) (n : Nat), wfSecs ss →
      headingNums (renderSecs n ss) = List.range' n ss.length := by
  intro ss
  induction ss with
  | nil => intro n _; simp [renderSecs, headingNums_nil]
  | cons s ss ih =>
    intro n hwf
    obtain ⟨hstitle, hsbody⟩ := hwf s (by simp)
    simp only [renderSecs]
    rw [headingNums_cons_some (matchHeading_mkHeading n s.title hstitle),
      headingNums_append, headingNums_eq_nil hsbody,
      ih (n + 1) (wfSecs_of_cons hwf)]
    simp [List.range'_succ]

theorem headingTitles_renderSecs :
    ∀ (ss : List Sec) (n : Nat), wfSecs ss →
      headingTitles (renderSecs n ss) = ss.map Sec.title := by
  intro ss
  induction ss with
  | nil => intro n _; simp [renderSecs, headingTitles_nil]
  | cons s ss ih =>
    intro n hwf
    obtain ⟨hstitle, hsbody⟩ := hwf s (by simp)
    simp only [renderSecs]
    rw [headingTitles_cons_some (matchHeading_mkHeading n s.title hstitle),
      headingTitles_append, headingTitles_eq_nil hsbody,
      ih (n + 1) (wfSecs_of_cons hwf)]
    simp

theorem findIdx18_eq_none_iff :
    ∀ ls : List (List Char),
      findIdx18 ls = none ↔ ∀ l ∈ ls, startsWith18 l = false := by
  intro ls
  induction ls with
  | nil => simp [findIdx18]
  | cons l ls ih =>
    by_cases h : startsWith18 l = true
    · simp [findIdx18, h]
    · have h' : startsWith18 l = false := by
        cases hb : startsWith18 l
        · rfl
        · exact absurd hb h
      simp [findIdx18, h', ih]

theorem findIdx18_some_lt :
    ∀ (ls : List (List Char)) (i : Nat), findIdx18 ls = some i → i < ls.length := by
  intro ls
  induction ls with
  | nil => intro i h; simp [findIdx18] at h
  | cons l ls ih =>
    intro i h
    by_cases hb : startsWith18 l = true
    · simp [findIdx18, hb] at h
      simp [List.length_cons]
      omega
    · have h' : startsWith18 l = false := by
        cases hc : startsWith18 l
        · rfl
        · exact absurd hc hb
      simp only [findIdx18, h'] at h
      cases hf : findIdx18 ls with
      | none => rw [hf] at h; simp at h
      | some j =>
        rw [hf] at h
        simp at h
        have := ih j hf
        simp [List.length_cons]
        omega

theorem splitNL_ne_nil : ∀ cs : List Char, splitNL cs ≠ [] := by
  intro cs
  induction cs with
  | nil => simp [splitNL]
  | cons c cs ih =>
    by_cases h : c = '\n'
    · simp [splitNL, h]
    · simp only [splitNL, if_neg h]
      cases hs : splitNL cs with
      | nil => simp
      | cons l ls => simp

theorem joinNL_splitNL : ∀ cs : List Char, joinNL (splitNL cs) = cs := by
  intro cs
  induction cs with
  | nil => rfl
  | cons c cs ih =>
    by_cases h : c = '\n'
    · subst h
      simp only [splitNL, if_pos rfl]
      cases hs : splitNL cs with
      | nil => exact absurd hs (splitNL_ne_nil cs)
      | cons l ls =>
        rw [hs] at ih
        simp only [joinNL, List.nil_append]
        rw [ih]
    · simp only [splitNL, if_neg h]
      cases hs : splitNL cs with
      | nil => exact absurd hs (splitNL_ne_nil cs)
      | cons l ls =>
        rw [hs] at ih
        cases ls with
        | nil =>
          simp only [joinNL] at ih ⊢
          rw [ih]
        | cons l' ls' =>
          simp only [joinNL] at ih ⊢
          rw [List.cons_append, ih]

theorem string_mk_data (s : String) : String.mk s.data = s := rfl

/-- C1 counterexample: the claim asserts that insertion succeeds for every
valid target in `[1, N+1]`.  For this well-formed document with sections
numbered 1..7 the append position 8 = N+1 is a valid target, yet the
operation returns the input byte-identically: no section is inserted and
the result still has the 7 heading numbers 1..7, not 8 sections. -/
theorem c1_counterexample :
    updateSpecsOnboarding
        ("## 1. A\na\n## 2. B\nb\n## 3. C\nc\n## 4. D\nd\n## 5. E\ne\n## 6. F\nf\n## 7. G\ng") =
      "## 1. A\na\n## 2. B\nb\n## 3. C\nc\n## 4. D\nd\n## 5. E\ne\n## 6. F\nf\n## 7. G\ng" ∧
    headingNums (splitNL
        ("## 1. A\na\n## 2. B\nb\n## 3. C\nc\n## 4. D\nd\n## 5. E\ne\n## 6. F\nf\n## 7. G\ng").data) =
      List.range' 1 7 := by
  constructor
  · decide
  · decide

/-- C1 (amended): for every well-formed input document with N ≥ 8
contiguously numbered sections — so that a section numbered 8 exists at
the script's fixed target position — the Onboarding insertion returns a
document with exactly N+1 sections whose heading numbers are exactly
1..N+1 in document order, with no gaps and no duplicates. -/
theorem c1_invariant (pre : List (List Char)) (A : List Sec) (s8 : Sec)
    (B : List Sec) (hwf : wfDoc pre (A ++ s8 :: B)) (hA : A.length = 7) :
    headingNums (onboardGo false 0 (renderDoc pre (A ++ s8 :: B))) =
      List.range' 1 ((A ++ s8 :: B).length + 1) := by
  obtain ⟨hpre, hsecs⟩ := hwf
  have hwfA : wfSecs A := fun s hs => hsecs s (by simp [hs])
  have hwfB : wfSecs B := fun s hs => hsecs s (by simp [hs])
  obtain ⟨ht8, hb8⟩ := hsecs s8 (by simp)
  rw [renderDoc, renderSecs_append A (s8 :: B) 1, hA]
  have h18 : (1 : Nat) + 7 = 8 := rfl
  rw [h18]
  have hpre8 : ∀ l ∈ pre ++ renderSecs 1 A, isHeading8 l = false := by
    intro l hl
    rcases List.mem_append.mp hl with h | h
    · exact isHeading8_of_none (hpre l h)
    · exact renderSecs_isHeading8_false A 1 hwfA (Or.inl (by omega)) l h
  rw [← List.append_assoc, onboardGo_untouched_before (pre ++ renderSecs 1 A) hpre8 0
    (renderSecs 8 (s8 :: B))]
  simp only [renderSecs]
  rw [onboardGo_cons_eight (matchHeading_mkHeading 8 s8.title ht8) 0,
    onboardGo_append_none s8.body hb8 true 9 (renderSecs (8 + 1) B)]
  have e1 : headingNums (pre ++ renderSecs 1 A) = List.range' 1 7 := by
    rw [headingNums_append, headingNums_eq_nil hpre,
      headingNums_renderSecs A 1 hwfA, hA]
    simp
  have e2 : headingNums newUseCaseLines = [8] := by decide
  have e3 : headingNums [[], []] = ([] : List Nat) := by decide
  have e4 : headingNums (onboardGo true 9 (renderSecs (8 + 1) B)) =
      List.range' 10 B.length := by
    rw [(onboardGo_true_renumbers (renderSecs (8 + 1) B) 9).1,
      headingTitles_renderSecs B (8 + 1) hwfB]
    simp
  rw [headingNums_append, e1, headingNums_append, headingNums_append, e2, e3,
    headingNums_cons_some (matchHeading_mkHeading 9 s8.title ht8),
    headingNums_append, headingNums_eq_nil hb8, e4]
  have e5 : (9 : Nat) :: List.range' 10 B.length = List.range' 9 (B.length + 1) := by
    simp [List.range'_succ]
  have e6 : ([8] : List Nat) = List.range' 8 1 := rfl
  simp only [List.append_nil, List.nil_append, e5, e6]
  have h78 : List.range' 1 7 ++ List.range' 8 1 = List.range' 1 8 := by
    have h := List.range'_append_1 1 7 1
    norm_num at h
    exact h
  have h89 : List.range' 1 8 ++ List.range' 9 (B.length + 1) =
      List.range' 1 (B.length + 1 + 8) := by
    have h := List.range'_append_1 1 8 (B.length + 1)
    norm_num at h
    exact h
  rw [← List.append_assoc, h78, h89]
  congr 1
  simp [List.length_append, List.length_cons, hA]
  omega

/-- C1 witness: a concrete well-formed 9-section document (7 sections, the
target section 8, and one further section); the insertion yields heading
numbers exactly 1..10. -/
theorem c1_witness :
    wfDoc [("intro".data)]
        ([⟨"One".data, [("x".data)]⟩, ⟨"Two".data, []⟩, ⟨"Three".data, []⟩,
          ⟨"Four".data, []⟩, ⟨"Five".data, []⟩, ⟨"Six".data, []⟩,
          ⟨"Seven".data, []⟩] ++ ⟨"Eight".data, [("y".data)]⟩ ::
          [⟨"Nine".data, []⟩]) ∧
    headingNums (onboardGo false 0 (renderDoc [("intro".data)]
        ([⟨"One".data, [("x".data)]⟩, ⟨"Two".data, []⟩, ⟨"Three".data, []⟩,
          ⟨"Four".data, []⟩, ⟨"Five".data, []⟩, ⟨"Six".data, []⟩,
          ⟨"Seven".data, []⟩] ++ ⟨"Eight".data, [("y".data)]⟩ ::
          [⟨"Nine".data, []⟩]))) = List.range' 1 10 :=
  ⟨by decide, c1_invariant _ _ _ _ (by decide) (by decide)⟩

/-- C2 counterexample: the claim asserts that a document with heading
numbers 1, 2, 4 makes the operation fail with `MalformedDocument`.  The
Onboarding insertion has no error channel at all: on this malformed
document it silently returns the input unchanged. -/
theorem c2_counterexample :
    updateSpecsOnboarding ("## 1. Alpha\nx\n## 2. Beta\ny\n## 4. Delta\nz") =
      "## 1. Alpha\nx\n## 2. Beta\ny\n## 4. Delta\nz" := by
  decide

/-- C2 (amended): neither script validates the numbering and no
`OutOfRange` or `MalformedDocument` errors exist.  The employer insertion
fails — with its missing-section message, the only failure it has —
exactly when no line of the document starts with `## 18.`; the Onboarding
insertion is a total function that silently passes through any document
with no heading numbered 8 (such as one numbered 1, 2, 4). -/
theorem c2_no_validation :
    (∀ ls : List (List Char),
      updateSpecsEmployerLines ls = Except.error ("Could not find Section 18.") ↔
        ∀ l ∈ ls, startsWith18 l = false) ∧
    (∀ ls : List (List Char), (∀ l ∈ ls, isHeading8 l = false) →
      onboardGo false 0 ls = ls) := by
  constructor
  · intro ls
    constructor
    · intro h
      cases hf : findIdx18 ls with
      | none => exact (findIdx18_eq_none_iff ls).mp hf
      | some i =>
        simp [updateSpecsEmployerLines, hf] at h
    · intro h
      rw [updateSpecsEmployerLines, (findIdx18_eq_none_iff ls).mpr h]
  · intro ls h
    have := onboardGo_untouched_before ls h 0 []
    simpa [onboardGo_nil] using this

/-- C2 witness: a document with no `## 18.` line makes the employer script
fail with its missing-section error, and the malformed document numbered
1, 2, 4 passes through the Onboarding insertion unchanged. -/
theorem c2_witness :
    updateSpecsEmployerLines [("plain text, no sections".data)] =
      Except.error ("Could not find Section 18.") ∧
    onboardGo false 0
        [("## 1. Alpha".data), ("x".data), ("## 2. Beta".data), ("## 4. Delta".data)] =
      [("## 1. Alpha".data), ("x".data), ("## 2. Beta".data), ("## 4. Delta".data)] :=
  ⟨(c2_no_validation.1 _).mpr (by decide), c2_no_validation.2 _ (by decide)⟩

/-- C3 counterexample: the claim asserts that for a document with sections
1..7, inserting at the append position 8 yields an 8-section document
whose section 8 is the new section.  The code instead returns the
document byte-identically: with no existing `## 8.` heading the insertion
branch never fires, so nothing is appended. -/
theorem c3_counterexample :
    updateSpecsOnboarding
        ("## 1. Login\nq\n## 2. Register\nr\n## 3. Search\ns\n## 4. Apply\nt\n## 5. Profile\nu\n## 6. Notify\nv\n## 7. Admin\nw") =
      "## 1. Login\nq\n## 2. Register\nr\n## 3. Search\ns\n## 4. Apply\nt\n## 5. Profile\nu\n## 6. Notify\nv\n## 7. Admin\nw" := by
  decide

/-- C3 (amended): for a well-formed document with sections numbered 1..7
(so no section numbered 8 exists), the Onboarding insertion returns the
document unchanged — the new section is not appended and no section is
renumbered; appending at position N+1 is not supported. -/
theorem c3_no_append (pre : List (List Char)) (secs : List Sec)
    (hwf : wfDoc pre secs) (h7 : secs.length = 7) :
    onboardGo false 0 (renderDoc pre secs) = renderDoc pre secs := by
  obtain ⟨hpre, hsecs⟩ := hwf
  have hall : ∀ l ∈ pre ++ renderSecs 1 secs, isHeading8 l = false := by
    intro l hl
    rcases List.mem_append.mp hl with h | h
    · exact isHeading8_of_none (hpre l h)
    · exact renderSecs_isHeading8_false secs 1 hsecs (Or.inl (by omega)) l h
  have := onboardGo_untouched_before (pre ++ renderSecs 1 secs) hall 0 []
  simpa [renderDoc, onboardGo_nil] using this

/-- C3 witness: a concrete well-formed 7-section document is returned
unchanged by the Onboarding insertion. -/
theorem c3_witness :
    wfDoc [] [⟨"Login".data, []⟩, ⟨"Register".data, []⟩, ⟨"Search".data, []⟩,
        ⟨"Apply".data, []⟩, ⟨"Profile".data, []⟩, ⟨"Notify".data, []⟩,
        ⟨"Admin".data, []⟩] ∧
    onboardGo false 0 (renderDoc []
        [⟨"Login".data, []⟩, ⟨"Register".data, []⟩, ⟨"Search".data, []⟩,
          ⟨"Apply".data, []⟩, ⟨"Profile".data, []⟩, ⟨"Notify".data, []⟩,
          ⟨"Admin".data, []⟩]) =
      renderDoc [] [⟨"Login".data, []⟩, ⟨"Register".data, []⟩,
        ⟨"Search".data, []⟩, ⟨"Apply".data, []⟩, ⟨"Profile".data, []⟩,
        ⟨"Notify".data, []⟩, ⟨"Admin".data, []⟩] :=
  ⟨by decide, c3_no_append _ _ (by decide) (by decide)⟩

/-- C4: the claim states that a line inside a section body that merely
looks like a heading marker (for example the quoted line `## 3. Example`)
is never treated as a structural heading and never renumbered.  The
employer script instead runs `re.sub` over the whole tail text, so the
body line `## 3. Example` after the `## 18.` heading is rewritten to
`## 4. Example`; this closed evaluation exhibits the behaviour at the
failing input. -/
theorem c4_body_line_renumbered :
    updateSpecsEmployerLines
        [("## 17. Review Applications".data), ("Body text.".data),
          ("## 18. Create Job Post".data),
          ("Example quoted heading in a body:".data),
          ("## 3. Example".data), ("More body.".data)] =
      Except.ok
        ([("## 17. Review Applications".data), ("Body text.".data)] ++ [[]] ++
          employerSectionLines ++
          [("## 19. Create Job Post".data),
            ("Example quoted heading in a body:".data),
            ("## 4. Example".data), ("More body.".data)]) := by
  rfl

/-- C5: prefix stability.  For the Onboarding insertion, every line before
the first heading numbered 8 — in particular every section strictly before
the insertion point, heading line, title and body — appears in the output
byte-identical and in place, and the whole transformation acts only on the
suffix.  For the employer insertion, the first `i` lines of the output are
exactly the first `i` lines of the input, where `i` is the index of the
`## 18.` line the text is split at. -/
theorem c5_prefix_stability :
    (∀ (pre rest : List (List Char)), (∀ l ∈ pre, isHeading8 l = false) →
      onboardGo false 0 (pre ++ rest) = pre ++ onboardGo false 0 rest) ∧
    (∀ (ls : List (List Char)) (i : Nat) (out : List (List Char)),
      findIdx18 ls = some i → updateSpecsEmployerLines ls = Except.ok out →
        out.take i = ls.take i) := by
  constructor
  · intro pre rest h
    exact onboardGo_untouched_before pre h 0 rest
  · intro ls i out hf hok
    have hlt := findIdx18_some_lt ls i hf
    simp only [updateSpecsEmployerLines, hf] at hok
    rw [Except.ok.injEq] at hok
    subst hok
    have hlen : (ls.take i).length = i := by
      rw [List.length_take]
      omega
    rw [List.append_assoc, List.append_assoc]
    exact List.take_left' hlen

/-- C5 witness: a concrete prefix of one plain line and one heading line
numbered 1 is returned unchanged ahead of the transformed suffix, and the
employer output starts with the untouched pre-split line. -/
theorem c5_witness :
    onboardGo false 0
        ([("intro text".data), ("## 1. First".data)] ++
          [("## 8. Target".data), ("tail".data)]) =
      [("intro text".data), ("## 1. First".data)] ++
        onboardGo false 0 [("## 8. Target".data), ("tail".data)] ∧
    ([("pre line".data)] ++ [[]] ++ employerSectionLines ++
        [("## 19. X".data)]).take 1 =
      [("pre line".data), ("## 18. X".data)].take 1 :=
  ⟨c5_prefix_stability.1 _ _ (by decide),
    c5_prefix_stability.2 [("pre line".data), ("## 18. X".data)] 1
      ([("pre line".data)] ++ [[]] ++ employerSectionLines ++
        [("## 19. X".data)]) (by rfl) (by rfl)⟩

/-- C6: content fidelity.  After a successful Onboarding insertion the new
section's lines appear verbatim and contiguously at the insertion point,
immediately after the untouched prefix; its first line is the heading
`## 8. Onboarding`, whose number 8 is exactly the target position.
Likewise the employer output contains the `Employer Onboarding` section
lines verbatim right after the split point, headed by
`## 18. Employer Onboarding`. -/
theorem c6_content_fidelity :
    (∀ (pre : List (List Char)) (l t : List Char) (rest : List (List Char)),
      (∀ l' ∈ pre, isHeading8 l' = false) → matchHeading l = some (8, t) →
        onboardGo false 0 (pre ++ l :: rest) =
          pre ++ newUseCaseLines ++ [[], []] ++
            mkHeading 9 t :: onboardGo true 9 rest) ∧
    newUseCaseLines.head? = some ("## 8. Onboarding".data) ∧
    matchHeading ("## 8. Onboarding".data) = some (8, "Onboarding".data) ∧
    (∀ (ls : List (List Char)) (i : Nat) (out : List (List Char)),
      findIdx18 ls = some i → updateSpecsEmployerLines ls = Except.ok out →
        (out.drop (i + 1)).take employerSectionLines.length =
          employerSectionLines) ∧
    employerSectionLines.head? = some ("## 18. Employer Onboarding".data) := by
  refine ⟨?_, by decide, by decide, ?_, by decide⟩
  · intro pre l t rest hp hm
    rw [onboardGo_untouched_before pre hp 0 (l :: rest), onboardGo_cons_eight hm 0 rest]
    simp [List.append_assoc]
  · intro ls i out hf hok
    have hlt := findIdx18_some_lt ls i hf
    simp only [updateSpecsEmployerLines, hf] at hok
    rw [Except.ok.injEq] at hok
    subst hok
    have hlen : (ls.take i ++ [[]]).length = i + 1 := by
      simp [List.length_take]
      omega
    rw [List.append_assoc (ls.take i ++ [[]])]
    rw [List.drop_left' hlen]
    exact List.take_left _ _

/-- C6 witness: concrete instances of both insertion equations. -/
theorem c6_witness :
    onboardGo false 0
        ([("## 7. Seven".data)] ++ ("## 8. Eight".data) :: [("body".data)]) =
      [("## 7. Seven".data)] ++ newUseCaseLines ++ [[], []] ++
        mkHeading 9 ("Eight".data) ::
          onboardGo true 9 [("body".data)] ∧
    ((([("a".data)] ++ [[]] ++ employerSectionLines ++
        [("## 19. B".data)]).drop 2).take employerSectionLines.length) =
      employerSectionLines :=
  ⟨c6_content_fidelity.1 _ _ _ _ (by decide) (by decide),
    c6_content_fidelity.2.2.2.1 [("a".data), ("## 18. B".data)] 1 _ (by rfl)
      (by rfl)⟩

/-- C7: failures are all-or-nothing.  In the employer script the only
failure — the missing-section check — exits before the write call is
reached, so whenever the run exits with status 1 the file still holds
exactly its original text; no partially inserted or partially renumbered
document is ever written.  (The Onboarding script has no failure path.) -/
theorem c7_all_or_nothing (f : String)
    (h : (runEmployerScript f).exitCode = some 1) :
    (runEmployerScript f).fileAfter = f := by
  unfold runEmployerScript
  cases he : updateSpecsEmployer f with
  | error e => rfl
  | ok out =>
    unfold runEmployerScript at h
    rw [he] at h
    simp at h

/-- C7 witness: on a document with no `## 18.` line the run exits with
status 1 and the file text is unchanged. -/
theorem c7_witness :
    (runEmployerScript ("just some text
without sections")).exitCode =
      some 1 ∧
    (runEmployerScript ("just some text
without sections")).fileAfter =
      "just some text
without sections" :=
  ⟨by decide, c7_all_or_nothing _ (by decide)⟩

/-- C8: a document with zero heading-marker lines — no line matching the
Onboarding heading regex and no line starting with `## 18.` — is treated
as unstructured text.  The Onboarding insertion returns the text
byte-identically, and the employer run leaves the file byte-identical
(it exits at the missing-section check before any write). -/
theorem c8_zero_headings (content : String)
    (h1 : ∀ l ∈ splitNL content.data, matchHeading l = none)
    (h2 : ∀ l ∈ splitNL content.data, startsWith18 l = false) :
    updateSpecsOnboarding content = content ∧
    (runEmployerScript content).fileAfter = content := by
  constructor
  · unfold updateSpecsOnboarding
    have hpass : ∀ l ∈ splitNL content.data, isHeading8 l = false :=
      fun l hl => isHeading8_of_none (h1 l hl)
    have hgo := onboardGo_untouched_before (splitNL content.data) hpass 0 []
    rw [List.append_nil, onboardGo_nil, List.append_nil] at hgo
    rw [hgo, joinNL_splitNL, string_mk_data]
  · have hf : findIdx18 (splitNL content.data) = none :=
      (findIdx18_eq_none_iff _).mpr h2
    unfold runEmployerScript updateSpecsEmployer updateSpecsEmployerLines
    rw [hf]
    rfl

/-- C8 witness: a concrete two-line document with no heading markers is
passed through byte-identically by both operations. -/
theorem c8_witness :
    updateSpecsOnboarding ("hello
world, there are no sections here.") =
      "hello
world, there are no sections here." ∧
    (runEmployerScript ("hello
world, there are no sections here.")).fileAfter =
      "hello
world, there are no sections here." :=
  c8_zero_headings _ (by decide) (by decide)

/-- C9: in the employer insertion, the whole tail from the first `## 18.`
line onward — bodies, duplicates and small numbers included — is mapped
line by line by the `re.sub` replacement, and on any line of the shape
`## <digits>.<rest>` that replacement rewrites the heading number to its
value plus one, keeping the rest of the line: the output number is the
input number plus one, wherever the line sits. -/
theorem c9_tail_rewrite :
    (∀ (ls : List (List Char)) (i : Nat), findIdx18 ls = some i →
      updateSpecsEmployerLines ls =
        Except.ok (ls.take i ++ [[]] ++ employerSectionLines ++
          (ls.drop i).map renumberLineEmployer)) ∧
    (∀ (ds rest : List Char), ds ≠ [] → (∀ c ∈ ds, c.isDigit = true) →
      renumberLineEmployer ('#' :: '#' :: ' ' :: (ds ++ '.' :: rest)) =
        '#' :: '#' :: ' ' ::
          (natToDigits (digitsToNat ds + 1) ++ '.' :: rest)) := by
  constructor
  · intro ls i hf
    simp [updateSpecsEmployerLines, hf]
  · intro ds rest hne hd
    have h1 : (ds ++ '.' :: rest).dropWhile Char.isDigit = '.' :: rest :=
      dropWhile_append_of_all _ _ _ hd (by decide)
    have h2 : (ds ++ '.' :: rest).takeWhile Char.isDigit = ds :=
      takeWhile_append_of_all _ _ _ hd (by decide)
    simp [renumberLineEmployer, h1, h2, hne]

/-- C9 witness: the whole tail of a concrete document is rewritten —
including the body line numbered 3, which becomes 4 — and a single
`## 3.` line is rewritten to `## 4.` with its text kept. -/
theorem c9_witness :
    updateSpecsEmployerLines
        [("x".data), ("## 18. A".data), ("## 3. Quoted".data)] =
      Except.ok ([("x".data)] ++ [[]] ++ employerSectionLines ++
        List.map renumberLineEmployer
          [("## 18. A".data), ("## 3. Quoted".data)]) ∧
    renumberLineEmployer ('#' :: '#' :: ' ' :: (['3'] ++ '.' :: (" Example".data))) =
      '#' :: '#' :: ' ' ::
        (natToDigits (digitsToNat ['3'] + 1) ++ '.' :: (" Example".data)) :=
  ⟨c9_tail_rewrite.1 _ 1 (by decide),
    c9_tail_rewrite.2 ['3'] (" Example".data) (by decide) (by decide)⟩

/-- C10: in the Onboarding insertion, once the new section is inserted
before the first heading numbered 8, the heading lines after that point
are rewritten with the consecutive numbers 8 (the new section), 9 (the old
section 8), 10, 11, ... in order of appearance regardless of their
original numbers — non-contiguous or duplicated input numbering in the
tail is silently normalized, never reported — while every heading's title
is preserved. -/
theorem c10_tail_normalization (pre : List (List Char)) (l t : List Char)
    (rest : List (List Char)) (hp : ∀ l' ∈ pre, isHeading8 l' = false)
    (hm : matchHeading l = some (8, t)) :
    headingNums (onboardGo false 0 (pre ++ l :: rest)) =
      headingNums pre ++ 8 :: List.range' 9 ((headingTitles rest).length + 1) ∧
    headingTitles (onboardGo false 0 (pre ++ l :: rest)) =
      headingTitles pre ++ ("Onboarding".data) :: t :: headingTitles rest := by
  have ht : t ≠ [] := matchHeading_title_ne_nil hm
  rw [onboardGo_untouched_before pre hp 0 (l :: rest), onboardGo_cons_eight hm 0 rest]
  obtain ⟨hn, htl⟩ := onboardGo_true_renumbers rest 9
  constructor
  · rw [headingNums_append, headingNums_append, headingNums_append,
      headingNums_cons_some (matchHeading_mkHeading 9 t ht), hn]
    have e2 : headingNums newUseCaseLines = [8] := by decide
    have e3 : headingNums [[], []] = ([] : List Nat) := by decide
    rw [e2, e3]
    simp [List.range'_succ]
  · rw [headingTitles_append, headingTitles_append, headingTitles_append,
      headingTitles_cons_some (matchHeading_mkHeading 9 t ht), htl]
    have e2 : headingTitles newUseCaseLines = [("Onboarding".data)] := by decide
    have e3 : headingTitles [[], []] = ([] : List (List Char)) := by decide
    rw [e2, e3]
    simp

/-- C10 witness: a concrete tail with out-of-order and small heading
numbers (12 then 4) is normalized to 9, 10, 11 with titles preserved. -/
theorem c10_witness :
    headingNums (onboardGo false 0
        ([("intro".data), ("## 1. A".data)] ++ ("## 8. Target".data) ::
          [("## 12. X".data), ("body".data), ("## 4. Y".data)])) =
      [1] ++ 8 :: List.range' 9 3 ∧
    headingTitles (onboardGo false 0
        ([("intro".data), ("## 1. A".data)] ++ ("## 8. Target".data) ::
          [("## 12. X".data), ("body".data), ("## 4. Y".data)])) =
      [("A".data)] ++ ("Onboarding".data) :: ("Target".data) ::
        [("X".data), ("Y".data)] :=
  c10_tail_normalization _ _ _ _ (by decide) (by decide)

end UpdateSpecs
